import Mathlib

/-!
Formal model of the activity-sync script `scripts/fetch_strava.py`.

Conventions of the shallow embedding:
* A calendar date is a `ℤ` counting days since 1970-01-01, so the weekday of
  day `d` (Monday = 0, as in Python `date.weekday()`) is `(d + 3) % 7`,
  because 1970-01-01 was a Thursday.  Lean `Int` division and modulus are
  Euclidean (`(-7) / 2 = -4`, remainders are non-negative), matching Python
  floor division on dates and timestamps.
* A local start instant (`start_date_local`, an ISO-8601 string in the
  script) is modelled as a `ℤ` of seconds; its calendar date is the floor
  division by 86400.  Comparing or maximising the ISO strings of a single
  format is the same as comparing the instants, and `datetime.timestamp()`
  of the parsed string is the instant itself.
* Python floats are modelled as exact rationals `ℚ`; `int(x)` is truncation
  toward zero and `round(x)` is round-half-to-even, both modelled explicitly.
* The cache, a Python insertion-ordered dict keyed by `str(activity["id"])`,
  is modelled as the list of its values in insertion order; key membership
  is `hasId`, key lookup is `lookupId`, and inserting a fresh key appends.
* The directory of permanent weekly report files is a list of
  (Monday date, file content) pairs.  The script names each file by the ISO
  week label of the Monday; since an ISO week contains exactly one Monday,
  labels are in bijection with Monday dates and the store is keyed by the
  Monday date directly.  The live report `current_week.md` is a separate
  field, as it lives outside the weekly directory.
-/

/-- One Strava activity record, with the fields the script reads. -/
structure Activity where
  id : ℕ
  type : String
  name : String
  start_date_local : ℤ
  distance : ℚ
  moving_time : ℕ
  has_heartrate : Bool
  average_heartrate : ℚ
deriving DecidableEq, Repr

/-- The activity cache: the values of the id-keyed dict, in insertion order. -/
abbrev Cache := List Activity

/-- Config constant `BACKFILL_DAYS = 14`. -/
def BACKFILL_DAYS : ℤ := 14

/-- Config constant `METERS_PER_MILE = 1609.34`. -/
def METERS_PER_MILE : ℚ := 160934 / 100

/-- Seconds in a day, used to turn a start instant into its calendar date. -/
def secondsPerDay : ℤ := 86400

/-- Calendar date (day number) of a local start instant. -/
def localDate (t : ℤ) : ℤ := t / secondsPerDay

/-- Python `date.weekday()`: Monday = 0.  Day 0 (1970-01-01) was a Thursday. -/
def weekday (d : ℤ) : ℤ := (d + 3) % 7

/-- `week_monday`: the Monday of the week containing `d`, computed as in the
script by subtracting the weekday offset. -/
def week_monday (d : ℤ) : ℤ := d - weekday d

/-- Key membership `aid in cache` of the id-keyed dict. -/
def hasId (c : Cache) (i : ℕ) : Bool := c.any (fun b => b.id == i)

/-- Key lookup `cache[aid]` of the id-keyed dict (first record with the id). -/
def lookupId (c : Cache) (i : ℕ) : Option Activity := c.find? (fun b => b.id == i)

/-- The merge loop of `main` (lines 437-442): for each fetched activity,
insert it only if its id is absent, counting insertions.  Inserting into a
Python dict appends in insertion order. -/
def merge : Cache → List Activity → Cache × ℕ
  | c, [] => (c, 0)
  | c, a :: rest =>
    if hasId c a.id then merge c rest
    else
      let r := merge (c ++ [a]) rest
      (r.1, r.2 + 1)

/-- One item of a legacy list-shaped cache document, as the migration
comprehension `{str(a["id"]): a for a in data}` sees it: a JSON object with
an id (parsed as a record), a JSON object without an id (subscripting
raises KeyError, which the loader catches), or a JSON value that is not an
object at all (subscripting raises TypeError, which the loader does not
catch). -/
inductive ListItem where
  | record (a : Activity)
  | objectNoId
  | nonObject
deriving DecidableEq

/-- The exception the migration comprehension raises at its first
malformed item. -/
inductive PyExc where
  | keyError
  | typeError
deriving DecidableEq

/-- The migration comprehension up to its first malformed item: the
records in list order, or the exception of the first item that is an
object without an id (KeyError) or not an object (TypeError). -/
def extractRecords : List ListItem → Except PyExc (List Activity)
  | [] => .ok []
  | .record a :: rest =>
    match extractRecords rest with
    | .ok l => .ok (a :: l)
    | .error e => .error e
  | .objectNoId :: _ => .error .keyError
  | .nonObject :: _ => .error .typeError

/-- The possible states of the persisted cache file read by `load_cache`:
missing; present but unreadable (`read_text` raises OSError or
UnicodeDecodeError); readable but not JSON (`json.loads` raises
JSONDecodeError); a valid-JSON list of items; a valid-JSON object keyed by
id strings; or a valid-JSON document that is neither a list nor an object
(number, string, boolean, null). -/
inductive CacheFile where
  | absent
  | unreadable
  | notJson
  | listDoc (items : List ListItem)
  | dictDoc (cache : Cache)
  | scalarDoc

/-- What a call to `load_cache` does: return a dict-shaped cache, return
the parsed document unchanged although it is not a dict, or let an
uncaught exception propagate out of the function. -/
inductive LoadOutcome where
  | cache (c : Cache)
  | nonDict
  | fatal
deriving DecidableEq

/-- The migration `{str(a["id"]): a for a in data}` of a well-formed legacy
list: build the dict left to right; a duplicate id keeps its first position
but takes the later value. -/
def rekey (l : List Activity) : Cache :=
  l.foldl
    (fun c a =>
      if hasId c a.id then c.map (fun b => if b.id == a.id then a else b)
      else c ++ [a])
    []

/-- `load_cache`: an absent file yields the empty cache; an unreadable file
raises out of the function, as the try block only guards the parse and
migration; a JSON decode error is caught and yields the empty cache; on a
list document the migration runs until its first malformed item - a caught
KeyError yields the empty cache, an uncaught TypeError is fatal; any other
parsed document, object-shaped or not, is returned unchanged. -/
def load_cache : CacheFile → LoadOutcome
  | .absent => .cache []
  | .unreadable => .fatal
  | .notJson => .cache []
  | .listDoc items =>
    match extractRecords items with
    | .ok records => .cache (rekey records)
    | .error .keyError => .cache []
    | .error .typeError => .fatal
  | .dictDoc d => .cache d
  | .scalarDoc => .nonDict

/-- `get_most_recent_timestamp`: `None` on an empty cache, otherwise the
start instant of the record maximal in `start_date_local`. -/
def get_most_recent_timestamp : Cache → Option ℤ
  | [] => none
  | a :: rest =>
    some (rest.foldl (fun m b => max m b.start_date_local) a.start_date_local)

/-- The fetch-window lower bound of `main` (lines 424-430): the most recent
cached timestamp, or 14 days before now on a first run or forced reset. -/
def fetch_after_epoch (cache : Cache) (nowTs : ℤ) : ℤ :=
  match get_most_recent_timestamp cache with
  | none => nowTs - BACKFILL_DAYS * secondsPerDay
  | some t => t

/-- Comparison key of the `results.sort` call: ascending start instant. -/
def startLe (a b : Activity) : Bool := decide (a.start_date_local ≤ b.start_date_local)

/-- Membership test of the week filter in `activities_for_week`. -/
def inWeek (monday : ℤ) (a : Activity) : Bool :=
  decide (monday ≤ localDate a.start_date_local ∧ localDate a.start_date_local ≤ monday + 6)

/-- `activities_for_week`: the cached records whose local date falls in the
Mon-Sun week of `monday`, sorted ascending by start instant. -/
def activities_for_week (cache : Cache) (monday : ℤ) : List Activity :=
  (cache.filter (inWeek monday)).mergeSort startLe

/-- Zero-padded two-digit rendering `f"{n:02d}"` of a natural number. -/
def pad2Nat (n : ℕ) : String := if n < 10 then "0" ++ toString n else toString n

/-- Zero-padded two-digit rendering `f"{n:02d}"` of an integer in `[0, 99]`. -/
def pad2Int (n : ℤ) : String := if 0 ≤ n ∧ n < 10 then "0" ++ toString n else toString n

/-- `format_duration`: seconds as `H:MM:SS` or `M:SS`. -/
def format_duration (seconds : ℕ) : String :=
  let h := seconds / 3600
  let rem := seconds % 3600
  let m := rem / 60
  let s := rem % 60
  if h > 0 then toString h ++ ":" ++ pad2Nat m ++ ":" ++ pad2Nat s
  else toString m ++ ":" ++ pad2Nat s

/-- `format_duration_hm`: seconds as `Xh YYm` or `Ym`. -/
def format_duration_hm (seconds : ℕ) : String :=
  let h := seconds / 3600
  let m := (seconds % 3600) / 60
  if h > 0 then toString h ++ "h " ++ pad2Nat m ++ "m" else toString m ++ "m"

/-- Floor of a rational, computed from numerator and denominator so that it
reduces in the kernel. -/
def ratFloor (q : ℚ) : ℤ := q.num / (q.den : ℤ)

/-- Python `int(x)`: truncation toward zero. -/
def pyTrunc (q : ℚ) : ℤ := if 0 ≤ q then ratFloor q else -(ratFloor (-q))

/-- Python `round(x)` on an exact value: round half to even. -/
def pyRound (q : ℚ) : ℤ :=
  let f := ratFloor q
  let r := q - (f : ℚ)
  if r < 1 / 2 then f
  else if 1 / 2 < r then f + 1
  else if f % 2 = 0 then f else f + 1

/-- `format_pace`: run pace as `M:SS/mi`, with the `:60` carry into the
minutes, or an em dash for zero distance. -/
def format_pace (moving_time_sec : ℕ) (distance_mi : ℚ) : String :=
  if distance_mi = 0 then "—"
  else
    let pace_min : ℚ := ((moving_time_sec : ℚ) / 60) / distance_mi
    let whole_min : ℤ := pyTrunc pace_min
    let frac_sec : ℤ := pyRound ((pace_min - (whole_min : ℚ)) * 60)
    toString (if frac_sec = 60 then whole_min + 1 else whole_min) ++ ":" ++
      pad2Int (if frac_sec = 60 then 0 else frac_sec) ++ "/mi"

/-- One-decimal rendering `f"{q:.1f}"` of a rational. -/
def formatRat1 (q : ℚ) : String :=
  let n : ℤ := pyRound (q * 10)
  if 0 ≤ n then toString (n / 10) ++ "." ++ toString (n % 10)
  else "-" ++ toString ((-n) / 10) ++ "." ++ toString ((-n) % 10)

/-- `format_speed`: ride speed as `X.X mph`, or an em dash for zero time. -/
def format_speed (distance_mi : ℚ) (moving_time_sec : ℕ) : String :=
  if moving_time_sec = 0 then "—"
  else formatRat1 (distance_mi / ((moving_time_sec : ℚ) / 3600)) ++ " mph"

/-- ASCII lowercase of a string, as Python `str.lower()` on activity kinds. -/
def strLower (s : String) : String := String.mk (s.data.map Char.toLower)

/-- `is_run`: the activity kind, lowercased, is run or virtualrun. -/
def is_run (a : Activity) : Bool :=
  strLower a.type == "run" || strLower a.type == "virtualrun"

/-- `is_ride`: the activity kind, lowercased, is ride or virtualride. -/
def is_ride (a : Activity) : Bool :=
  strLower a.type == "ride" || strLower a.type == "virtualride"

/-- `pace_or_speed`: pace for runs, speed for rides, em dash otherwise. -/
def pace_or_speed (a : Activity) : String :=
  let dist_mi := a.distance / METERS_PER_MILE
  if is_run a then format_pace a.moving_time dist_mi
  else if is_ride a then format_speed dist_mi a.moving_time
  else "—"

/-- `activity_type_short`: the fixed mapping of kinds to short labels, with
the first four characters as the fallback. -/
def activity_type_short (a : Activity) : String :=
  let t := a.type
  if t == "Run" then "Run" else if t == "VirtualRun" then "Run"
  else if t == "Ride" then "Ride" else if t == "VirtualRide" then "Ride"
  else if t == "Swim" then "Swim" else if t == "Walk" then "Walk"
  else if t == "Hike" then "Hike" else if t == "Yoga" then "Yoga"
  else if t == "WeightTraining" then "Wts" else if t == "Workout" then "Wrkt"
  else t.take 4

/-- Civil date (year, month, day) of a day number, by the standard
days-to-civil algorithm on Euclidean division. -/
def civilFromDays (z : ℤ) : ℤ × ℤ × ℤ :=
  let z2 := z + 719468
  let era := z2 / 146097
  let doe := z2 - era * 146097
  let yoe := (doe - doe / 1460 + doe / 36524 - doe / 146096) / 365
  let y := yoe + era * 400
  let doy := doe - (365 * yoe + yoe / 4 - yoe / 100)
  let mp := (5 * doy + 2) / 153
  let dd := doy - (153 * mp + 2) / 5 + 1
  let m := if mp < 10 then mp + 3 else mp - 9
  (if m ≤ 2 then y + 1 else y, m, dd)

/-- Day number of a civil date, inverse direction of `civilFromDays`. -/
def daysFromCivil (y m d : ℤ) : ℤ :=
  let y2 := if m ≤ 2 then y - 1 else y
  let era := y2 / 400
  let yoe := y2 - era * 400
  let mp := if m > 2 then m - 3 else m + 9
  let doy := (153 * mp + 2) / 5 + d - 1
  let doe := yoe * 365 + yoe / 4 - yoe / 100 + doy
  era * 146097 + doe - 719468

/-- Month abbreviation used by `strftime("%b")`. -/
def monthAbbrev (m : ℤ) : String :=
  if m = 1 then "Jan" else if m = 2 then "Feb" else if m = 3 then "Mar"
  else if m = 4 then "Apr" else if m = 5 then "May" else if m = 6 then "Jun"
  else if m = 7 then "Jul" else if m = 8 then "Aug" else if m = 9 then "Sep"
  else if m = 10 then "Oct" else if m = 11 then "Nov" else "Dec"

/-- `strftime("%b %d")` of a day number. -/
def strftimeBD (d : ℤ) : String :=
  let c := civilFromDays d
  monthAbbrev c.2.1 ++ " " ++ pad2Int c.2.2

/-- `week_date_range_str`: the Mon-Sun display range of a week. -/
def week_date_range_str (monday : ℤ) : String :=
  "Mon " ++ strftimeBD monday ++ " - Sun " ++ strftimeBD (monday + 6)

/-- `isocalendar()[1]`: the ISO week number of a day, via the Thursday of
its week. -/
def isoWeekNumber (d : ℤ) : ℤ :=
  let thursday := d - weekday d + 3
  let isoYear := (civilFromDays thursday).1
  (thursday - daysFromCivil isoYear 1 1) / 7 + 1

/-- The run sublist of a week, `[a for a in activities if is_run(a)]`. -/
def runsOf (acts : List Activity) : List Activity := acts.filter is_run

/-- The ride sublist of a week. -/
def ridesOf (acts : List Activity) : List Activity := acts.filter is_ride

/-- Total run distance of a week in miles. -/
def run_miles (acts : List Activity) : ℚ :=
  ((runsOf acts).map (fun a => a.distance / METERS_PER_MILE)).sum

/-- Total ride distance of a week in miles. -/
def ride_miles (acts : List Activity) : ℚ :=
  ((ridesOf acts).map (fun a => a.distance / METERS_PER_MILE)).sum

/-- Total run moving time of a week in seconds. -/
def run_time (acts : List Activity) : ℕ :=
  ((runsOf acts).map (fun a => a.moving_time)).sum

/-- Total ride moving time of a week in seconds. -/
def ride_time (acts : List Activity) : ℕ :=
  ((ridesOf acts).map (fun a => a.moving_time)).sum

/-- Total moving time of a week in seconds. -/
def total_time (acts : List Activity) : ℕ :=
  (acts.map (fun a => a.moving_time)).sum

/-- The aggregate run pace line value of `build_week_totals`:
`format_pace(run_time, run_miles) if run_miles > 0 else "—"`. -/
def run_pace (acts : List Activity) : String :=
  if run_miles acts > 0 then format_pace (run_time acts) (run_miles acts) else "—"

/-- The distinct calendar dates of a week that have at least one activity. -/
def active_days (acts : List Activity) : Finset ℤ :=
  (acts.map (fun a => localDate a.start_date_local)).toFinset

/-- `days_so_far = (min(now, sunday) - monday).days + 1`. -/
def days_so_far (monday now : ℤ) : ℤ := min now (monday + 6) - monday + 1

/-- `rest_days = days_so_far - len(active_days)`. -/
def rest_days (acts : List Activity) (monday now : ℤ) : ℤ :=
  days_so_far monday now - (active_days acts).card

/-- `build_week_totals`: the totals block of a weekly report, joined by
newlines.  `now` is the calendar date of `datetime.now()`. -/
def build_week_totals (acts : List Activity) (monday now : ℤ) : String :=
  let nRuns := (runsOf acts).length
  let nRides := (ridesOf acts).length
  let is_current := monday ≤ now ∧ now ≤ monday + 6
  String.intercalate "\n"
    (["- Running: " ++ formatRat1 (run_miles acts) ++ " mi | " ++ toString nRuns ++
        " " ++ (if nRuns == 1 then "run" else "runs") ++ " | avg pace " ++ run_pace acts,
      "- Cycling: " ++ formatRat1 (ride_miles acts) ++ " mi | " ++ toString nRides ++
        " " ++ (if nRides == 1 then "ride" else "rides") ++ " | " ++
        format_duration_hm (ride_time acts),
      "- Strength: (see status.md)"] ++
     [if is_current then
        "- Rest days so far: " ++ toString (rest_days acts monday now) ++ "/" ++
          toString (days_so_far monday now)
      else "- Rest days: " ++ toString (rest_days acts monday now)] ++
     ["- Total training hours: " ++ format_duration_hm (total_time acts)])

/-- `build_activity_row`: one markdown table row for an activity. -/
def build_activity_row (a : Activity) : String :=
  let date_str := strftimeBD (localDate a.start_date_local)
  let dist_mi := a.distance / METERS_PER_MILE
  let hr := if a.has_heartrate && !(a.average_heartrate == 0)
    then toString (pyTrunc a.average_heartrate) else ""
  let dist_str := if dist_mi > 1 / 20 then formatRat1 dist_mi ++ " mi" else "—"
  "| " ++ date_str ++ " | " ++ activity_type_short a ++ " | " ++ a.name ++ " | " ++
    dist_str ++ " | " ++ format_duration a.moving_time ++ " | " ++ pace_or_speed a ++
    " | " ++ hr ++ " |"

/-- The markdown table heading shared by both report kinds. -/
def tableHeading : List String :=
  ["| Date | Type | Name | Dist | Time | Pace/Speed | Avg HR |",
   "|------|------|------|------|------|------------|--------|"]

/-- The placeholder row a permanent report shows for a week with no
activities. -/
def noActivitiesRow : String := "| — | — | No activities | — | — | — | — |"

/-- The lines of a permanent weekly report, as built by
`generate_weekly_summary` before joining with newlines. -/
def weekly_report_lines (cache : Cache) (monday now : ℤ) : List String :=
  let acts := activities_for_week cache monday
  ["# Week " ++ pad2Int (isoWeekNumber monday) ++ " (" ++ week_date_range_str monday ++ ")",
   "", "## Totals", build_week_totals acts monday now, "", "## Activities"] ++
  tableHeading ++
  (if acts.isEmpty then [noActivitiesRow] else acts.map build_activity_row) ++
  ["", "## Body & Injury Notes", "- (to be filled in)", "",
   "## Training Notes", "- (to be filled in)", ""]

/-- The full text of a permanent weekly report file. -/
def weekly_report (cache : Cache) (monday now : ℤ) : String :=
  String.intercalate "\n" (weekly_report_lines cache monday now) ++ "\n"

/-- The directory of permanent weekly report files, keyed by the Monday of
the week (the file name is the ISO week label of that Monday). -/
abbrev WeeklyStore := List (ℤ × String)

/-- `generate_weekly_summary`: if the report file for the week already
exists, return unchanged; otherwise write it once, from the current cache. -/
def generate_weekly_summary (store : WeeklyStore) (cache : Cache) (monday now : ℤ) :
    WeeklyStore :=
  if (store.lookup monday).isSome then store
  else (monday, weekly_report cache monday now) :: store

/-- `check_weekly_rollover`: if the report of the immediately preceding week
is missing, generate it and answer its week key; otherwise do nothing. -/
def check_weekly_rollover (store : WeeklyStore) (cache : Cache) (now : ℤ) :
    WeeklyStore × Option ℤ :=
  let last_monday := week_monday now - 7
  if (store.lookup last_monday).isSome then (store, none)
  else (generate_weekly_summary store cache last_monday now, some last_monday)

/-- `strftime("%Y-%m-%d %H:%M")` of an instant, for the live-report banner. -/
def strftimeYMDHM (ts : ℤ) : String :=
  let c := civilFromDays (ts / secondsPerDay)
  let rem := ts % secondsPerDay
  toString c.1 ++ "-" ++ pad2Int c.2.1 ++ "-" ++ pad2Int c.2.2 ++ " " ++
    pad2Int (rem / 3600) ++ ":" ++ pad2Int (rem % 3600 / 60)

/-- The lines of the live report written by `write_current_week`. -/
def current_week_lines (cache : Cache) (nowTs : ℤ) : List String :=
  let today := localDate nowTs
  let monday := week_monday today
  let acts := activities_for_week cache monday
  ["# Current Week (" ++ week_date_range_str monday ++ ")",
   "*Last updated: " ++ strftimeYMDHM nowTs ++ "*",
   "", "## Totals", build_week_totals acts monday today, "", "## Activities"] ++
  tableHeading ++
  (if acts.isEmpty then ["| — | — | No activities yet | — | — | — | — |"]
   else acts.map build_activity_row) ++
  [""]

/-- The report files a run touches: the weekly directory and the separate
live report `current_week.md`. -/
structure ReportFiles where
  weekly : WeeklyStore
  current : String
deriving DecidableEq

/-- The report-writing tail of `main` (lines 447-451): one rollover check on
the weekly directory, then an unconditional rewrite of the live report. -/
def run_reports (fs : ReportFiles) (cache : Cache) (nowTs : ℤ) :
    ReportFiles × Option ℤ :=
  let r := check_weekly_rollover fs.weekly cache (localDate nowTs)
  (⟨r.1, String.intercalate "\n" (current_week_lines cache nowTs) ++ "\n"⟩, r.2)

theorem hasId_append (c d : Cache) (i : ℕ) :
    hasId (c ++ d) i = (hasId c i || hasId d i) := by
  simp [hasId, List.any_append]

theorem hasId_cons (b : Activity) (c : Cache) (i : ℕ) :
    hasId (b :: c) i = ((b.id == i) || hasId c i) := by
  simp [hasId]

theorem merge_extra (inc : List Activity) (c : Cache) :
    ∃ extra, merge c inc = (c ++ extra, extra.length) ∧
      ∀ b ∈ extra, b ∈ inc ∧ hasId c b.id = false := by
  induction inc generalizing c with
  | nil => exact ⟨[], by simp [merge], by simp⟩
  | cons a rest ih =>
    by_cases h : hasId c a.id = true
    · obtain ⟨extra, he, hm⟩ := ih c
      exact ⟨extra, by simp [merge, h, he],
        fun b hb => ⟨List.mem_cons_of_mem _ (hm b hb).1, (hm b hb).2⟩⟩
    · obtain ⟨extra, he, hm⟩ := ih (c ++ [a])
      have hfalse : hasId c a.id = false := by
        exact Bool.eq_false_iff.mpr h
      refine ⟨a :: extra, ?_, ?_⟩
      · simp [merge, h, he, List.append_assoc]
      · intro b hb
        rcases List.mem_cons.mp hb with hb | hb
        · subst hb; exact ⟨List.mem_cons_self _ _, hfalse⟩
        · refine ⟨List.mem_cons_of_mem _ (hm b hb).1, ?_⟩
          have := (hm b hb).2
          rw [hasId_append] at this
          exact (Bool.or_eq_false_iff.mp this).1

theorem merge_nochange (inc : List Activity) (c : Cache)
    (h : ∀ a ∈ inc, hasId c a.id = true) : merge c inc = (c, 0) := by
  induction inc with
  | nil => simp [merge]
  | cons a rest ih =>
    simp [merge, h a (List.mem_cons_self a rest),
      ih (fun b hb => h b (List.mem_cons_of_mem _ hb))]

theorem hasId_merge (inc : List Activity) (c : Cache) (i : ℕ) :
    hasId (merge c inc).1 i = (hasId c i || inc.any (fun a => a.id == i)) := by
  induction inc generalizing c with
  | nil => simp [merge]
  | cons a rest ih =>
    by_cases h : hasId c a.id = true
    · rw [show merge c (a :: rest) = merge c rest from by simp [merge, h], ih c]
      simp only [List.any_cons]
      by_cases hi : a.id = i
      · subst hi; simp [h]
      · have hne : (a.id == i) = false := beq_eq_false_iff_ne.mpr hi
        simp [hne]
    · rw [show (merge c (a :: rest)).1 = (merge (c ++ [a]) rest).1 from by
        simp [merge, h], ih (c ++ [a]), hasId_append]
      simp [hasId, Bool.or_assoc]

theorem lookupId_append_left (c d : Cache) (i : ℕ) (h : hasId c i = true) :
    lookupId (c ++ d) i = lookupId c i := by
  induction c with
  | nil => simp [hasId] at h
  | cons b c ih =>
    by_cases hb : (b.id == i) = true
    · simp only [lookupId, List.cons_append]
      rw [@List.find?_cons_of_pos _ (fun x => x.id == i) b (c ++ d) hb,
        @List.find?_cons_of_pos _ (fun x => x.id == i) b c hb]
    · have hbf : (b.id == i) = false := Bool.eq_false_iff.mpr hb
      have h' : hasId c i = true := by
        rw [hasId_cons, hbf] at h
        simpa using h
      have ihd := ih h'
      simp only [lookupId] at ihd ⊢
      rw [List.cons_append, List.find?_cons_of_neg _ (by simp [hbf]),
        List.find?_cons_of_neg _ (by simp [hbf])]
      exact ihd

/-- C1: merge inserts each incoming record under its identifier only if that
identifier is absent in the cache (the cache grows by exactly the records
whose ids were absent), never overwrites an existing entry (lookup of any id
present before the merge is unchanged), counts exactly the newly inserted
records, and is idempotent: merging the same batch again changes nothing and
counts zero. -/
theorem merge_dedup_count_idempotent (c : Cache) (inc : List Activity) :
    (∃ extra, merge c inc = (c ++ extra, extra.length) ∧
        ∀ b ∈ extra, b ∈ inc ∧ hasId c b.id = false) ∧
    (∀ i, hasId c i = true → lookupId (merge c inc).1 i = lookupId c i) ∧
    merge (merge c inc).1 inc = ((merge c inc).1, 0) := by
  obtain ⟨extra, he, hm⟩ := merge_extra inc c
  refine ⟨⟨extra, he, hm⟩, ?_, ?_⟩
  · intro i hi
    rw [he]
    exact lookupId_append_left c extra i hi
  · apply merge_nochange
    intro a ha
    rw [hasId_merge]
    have hany : inc.any (fun x => x.id == a.id) = true :=
      List.any_eq_true.mpr ⟨a, ha, beq_self_eq_true a.id⟩
    simp [hany]

/-- A concrete run activity: 6.2 miles (9977.908 meters) in 3720 seconds. -/
def actRun : Activity := ⟨1, "Run", "Morning Run", 4 * 86400 + 3600, 9977908 / 1000, 3720, false, 0⟩

/-- A concrete ride activity on the following day. -/
def actRide : Activity := ⟨2, "Ride", "Evening Spin", 5 * 86400, 10000, 1800, true, 150⟩

/-- Witness for C1 at a concrete cache and batch. -/
theorem merge_dedup_count_idempotent_witness :
    merge (merge [actRun] [actRide, actRun]).1 [actRide, actRun]
      = ((merge [actRun] [actRide, actRun]).1, 0) :=
  (merge_dedup_count_idempotent [actRun] [actRide, actRun]).2.2

theorem rekey_fold (l : List Activity) (c : Cache)
    (hfresh : ∀ a ∈ l, hasId c a.id = false)
    (hdist : l.Pairwise (fun a b => a.id ≠ b.id)) :
    l.foldl
      (fun c a =>
        if hasId c a.id then c.map (fun b => if b.id == a.id then a else b)
        else c ++ [a]) c = c ++ l := by
  induction l generalizing c with
  | nil => simp
  | cons a rest ih =>
    have ha : hasId c a.id = false := hfresh a (List.mem_cons_self a rest)
    have hpair := List.pairwise_cons.mp hdist
    have hfresh' : ∀ b ∈ rest, hasId (c ++ [a]) b.id = false := by
      intro b hb
      rw [hasId_append]
      have h1 : hasId c b.id = false := hfresh b (List.mem_cons_of_mem _ hb)
      have h2 : hasId [a] b.id = false := by
        simp [hasId, beq_eq_false_iff_ne.mpr (hpair.1 b hb)]
      rw [h1, h2]
      rfl
    simp only [List.foldl_cons, ha, Bool.false_eq_true, if_false]
    rw [ih (c ++ [a]) hfresh' hpair.2, List.append_assoc, List.singleton_append]

theorem lookupId_of_pairwise (l : List Activity)
    (hdist : l.Pairwise (fun a b => a.id ≠ b.id)) :
    ∀ a ∈ l, lookupId l a.id = some a := by
  induction l with
  | nil => simp
  | cons b rest ih =>
    intro a ha
    rcases List.mem_cons.mp ha with rfl | ha
    · exact @List.find?_cons_of_pos _ (fun x => x.id == a.id) a rest
        (beq_self_eq_true a.id)
    · have hpair := List.pairwise_cons.mp hdist
      have hne : (b.id == a.id) = false := beq_eq_false_iff_ne.mpr (hpair.1 a ha)
      rw [lookupId, @List.find?_cons_of_neg _ (fun x => x.id == a.id) b rest
        (by simp [hne])]
      exact ih hpair.2 a ha

theorem extractRecords_map_record (l : List Activity) :
    extractRecords (l.map ListItem.record) = .ok l := by
  induction l with
  | nil => rfl
  | cons a rest ih => simp [extractRecords, ih]

/-- C3 counterexample: an unreadable cache file and a legacy list holding a
non-object item both make the loader raise a fatal error instead of
returning the empty cache, and a valid-JSON scalar document is returned
unchanged rather than as the empty cache - three corrupt or unreadable
persisted states on which the claimed recovery fails. -/
theorem load_cache_fatal_counterexample :
    load_cache CacheFile.unreadable = LoadOutcome.fatal ∧
    load_cache (CacheFile.listDoc [ListItem.nonObject]) = LoadOutcome.fatal ∧
    load_cache CacheFile.scalarDoc = LoadOutcome.nonDict ∧
    LoadOutcome.fatal ≠ LoadOutcome.cache [] ∧
    LoadOutcome.nonDict ≠ LoadOutcome.cache [] := by
  decide

/-- C3 amended: loading recovers to the empty cache exactly from the states
the except clause covers - an absent file, a JSON decode failure, and a
legacy list whose first malformed item is an object without an id
(KeyError); loading is fatal exactly on an unreadable file or a legacy
list whose first malformed item is not an object (TypeError); a valid-JSON
scalar document is returned unchanged, not as the empty cache; and a
well-formed legacy list document is migrated by re-keying each record on
its identifier, so with pairwise distinct ids it loads as exactly the
listed records, each reachable under its own id. -/
theorem load_cache_partial_recovery :
    (∀ f, load_cache f = LoadOutcome.fatal ↔
        (f = CacheFile.unreadable ∨ ∃ items, f = CacheFile.listDoc items ∧
          extractRecords items = Except.error PyExc.typeError)) ∧
    load_cache CacheFile.absent = LoadOutcome.cache [] ∧
    load_cache CacheFile.notJson = LoadOutcome.cache [] ∧
    (∀ items, extractRecords items = Except.error PyExc.keyError →
        load_cache (CacheFile.listDoc items) = LoadOutcome.cache []) ∧
    load_cache CacheFile.scalarDoc = LoadOutcome.nonDict ∧
    (∀ l, load_cache (CacheFile.listDoc (l.map ListItem.record)) =
        LoadOutcome.cache (rekey l)) ∧
    (∀ l, l.Pairwise (fun a b => a.id ≠ b.id) →
        load_cache (CacheFile.listDoc (l.map ListItem.record)) = LoadOutcome.cache l ∧
        ∀ a ∈ l, lookupId l a.id = some a) := by
  have hmap : ∀ l : List Activity,
      load_cache (CacheFile.listDoc (l.map ListItem.record)) =
        LoadOutcome.cache (rekey l) := by
    intro l
    simp [load_cache, extractRecords_map_record]
  refine ⟨?_, rfl, rfl, ?_, rfl, hmap, ?_⟩
  · intro f
    cases f with
    | absent => simp [load_cache]
    | unreadable => simp [load_cache]
    | notJson => simp [load_cache]
    | dictDoc c => simp [load_cache]
    | scalarDoc => simp [load_cache]
    | listDoc items =>
      rcases h : extractRecords items with e | l
      · cases e
        · simp [load_cache, h]
        · simp [load_cache, h]
      · simp [load_cache, h]
  · intro items h
    simp [load_cache, h]
  · intro l hdist
    have hre : rekey l = l := by
      rw [rekey, rekey_fold l [] (by simp [hasId]) hdist, List.nil_append]
    exact ⟨by rw [hmap l, hre], lookupId_of_pairwise l hdist⟩

/-- Witness for C3 (amended): a concrete well-formed legacy list with
distinct ids loads as exactly the same records. -/
theorem load_cache_partial_recovery_witness :
    load_cache (CacheFile.listDoc ([actRun, actRide].map ListItem.record)) =
      LoadOutcome.cache [actRun, actRide] :=
  (load_cache_partial_recovery.2.2.2.2.2.2 [actRun, actRide] (by decide)).1

theorem foldl_max_spec (l : List Activity) (init : ℤ) :
    init ≤ l.foldl (fun m b => max m b.start_date_local) init ∧
    (∀ a ∈ l, a.start_date_local ≤ l.foldl (fun m b => max m b.start_date_local) init) ∧
    (l.foldl (fun m b => max m b.start_date_local) init = init ∨
      ∃ a ∈ l, a.start_date_local = l.foldl (fun m b => max m b.start_date_local) init) := by
  induction l generalizing init with
  | nil => simp
  | cons b rest ih =>
    obtain ⟨h1, h2, h3⟩ := ih (max init b.start_date_local)
    simp only [List.foldl_cons]
    refine ⟨le_trans (le_max_left _ _) h1, ?_, ?_⟩
    · intro a ha
      rcases List.mem_cons.mp ha with rfl | ha
      · exact le_trans (le_max_right _ _) h1
      · exact h2 a ha
    · rcases h3 with h3 | ⟨a, ha, h3⟩
      · rcases le_total init b.start_date_local with hle | hle
        · right
          exact ⟨b, List.mem_cons_self _ _, by rw [h3, max_eq_right hle]⟩
        · left
          rw [h3, max_eq_left hle]
      · right
        exact ⟨a, List.mem_cons_of_mem _ ha, h3⟩

/-- C5: the most recent timestamp is `none` exactly on the empty cache and
otherwise the greatest cached start instant (attained by some record and an
upper bound of all); the fetch lower bound is that instant when it exists
and otherwise 14 days (in seconds) before now. -/
theorem most_recent_timestamp_spec (cache : Cache) (nowTs : ℤ) :
    (get_most_recent_timestamp cache = none ↔ cache = []) ∧
    (∀ t, get_most_recent_timestamp cache = some t →
        (∃ a ∈ cache, a.start_date_local = t) ∧
          ∀ a ∈ cache, a.start_date_local ≤ t) ∧
    (cache = [] → fetch_after_epoch cache nowTs = nowTs - 14 * 86400) ∧
    (∀ t, get_most_recent_timestamp cache = some t →
        fetch_after_epoch cache nowTs = t) := by
  match cache with
  | [] =>
    refine ⟨by simp [get_most_recent_timestamp], ?_, ?_, ?_⟩
    · intro t ht
      exact absurd ht (by simp [get_most_recent_timestamp])
    · intro _
      rfl
    · intro t ht
      exact absurd ht (by simp [get_most_recent_timestamp])
  | a :: rest =>
    obtain ⟨h1, h2, h3⟩ := foldl_max_spec rest a.start_date_local
    refine ⟨by simp [get_most_recent_timestamp], ?_, by simp, ?_⟩
    · intro t ht
      have hteq : rest.foldl (fun m b => max m b.start_date_local) a.start_date_local = t := by
        simpa [get_most_recent_timestamp] using ht
      subst hteq
      constructor
      · rcases h3 with h3 | ⟨b, hb, h3⟩
        · exact ⟨a, List.mem_cons_self _ _, h3.symm⟩
        · exact ⟨b, List.mem_cons_of_mem _ hb, h3⟩
      · intro b hb
        rcases List.mem_cons.mp hb with rfl | hb
        · exact h1
        · exact h2 b hb
    · intro t ht
      simp only [fetch_after_epoch, ht]

/-- Witness for C5: on a concrete two-record cache the fetch lower bound is
the later start instant. -/
theorem most_recent_timestamp_spec_witness :
    fetch_after_epoch [actRun, actRide] 999 = 5 * 86400 :=
  (most_recent_timestamp_spec [actRun, actRide] 999).2.2.2 (5 * 86400) (by decide)

theorem lookup_cons_self (m : ℤ) (r : String) (s : WeeklyStore) :
    List.lookup m ((m, r) :: s) = some r := by
  simp [List.lookup]

theorem lookup_cons_ne (k m : ℤ) (r : String) (s : WeeklyStore) (h : m ≠ k) :
    List.lookup m ((k, r) :: s) = List.lookup m s := by
  simp [List.lookup, beq_eq_false_iff_ne.mpr h]

theorem rollover_frame (store : WeeklyStore) (cache : Cache) (today m : ℤ)
    (h : m ≠ week_monday today - 7) :
    ((check_weekly_rollover store cache today).1).lookup m = store.lookup m := by
  by_cases hs : (store.lookup (week_monday today - 7)).isSome
  · simp [check_weekly_rollover, hs]
  · simp only [check_weekly_rollover, generate_weekly_summary, hs, Bool.false_eq_true,
      if_false]
    exact lookup_cons_ne _ _ _ _ h

theorem run_preserves_weekly (fs : ReportFiles) (cache : Cache) (nowTs : ℤ)
    (m : ℤ) (r : String) (h : fs.weekly.lookup m = some r) :
    ((run_reports fs cache nowTs).1).weekly.lookup m = some r := by
  show ((check_weekly_rollover fs.weekly cache (localDate nowTs)).1).lookup m = some r
  by_cases hm : m = week_monday (localDate nowTs) - 7
  · have hs : (fs.weekly.lookup (week_monday (localDate nowTs) - 7)).isSome := by
      rw [← hm, h]
      rfl
    simp [check_weekly_rollover, hs, h]
  · rw [rollover_frame fs.weekly cache (localDate nowTs) m hm]
    exact h

/-- C2: permanent weekly reports are write-once.  On each run, if the report
for the previous week (of the date of now) is missing, it is generated from
the current cache; a report already present survives the run unchanged, and
by iteration survives any sequence of later runs with arbitrary caches and
clock values. -/
theorem permanent_reports_write_once (fs : ReportFiles) (cache : Cache) (nowTs : ℤ) :
    (∀ m r, fs.weekly.lookup m = some r →
        ((run_reports fs cache nowTs).1).weekly.lookup m = some r) ∧
    (fs.weekly.lookup (week_monday (localDate nowTs) - 7) = none →
        ((run_reports fs cache nowTs).1).weekly.lookup (week_monday (localDate nowTs) - 7)
          = some (weekly_report cache (week_monday (localDate nowTs) - 7) (localDate nowTs))) ∧
    (∀ runs : List (Cache × ℤ), ∀ m r, fs.weekly.lookup m = some r →
        (((runs.foldl (fun st p => (run_reports st p.1 p.2).1) fs)).weekly).lookup m
          = some r) := by
  refine ⟨fun m r h => run_preserves_weekly fs cache nowTs m r h, ?_, ?_⟩
  · intro habs
    show ((check_weekly_rollover fs.weekly cache (localDate nowTs)).1).lookup _ = _
    have hs : (fs.weekly.lookup (week_monday (localDate nowTs) - 7)).isSome = false := by
      rw [habs]
      rfl
    simp only [check_weekly_rollover, generate_weekly_summary, hs, Bool.false_eq_true,
      if_false]
    exact lookup_cons_self _ _ _
  · intro runs
    induction runs generalizing fs with
    | nil => exact fun m r h => h
    | cons p rest ih =>
      intro m r h
      exact ih ((run_reports fs p.1 p.2).1) m r (run_preserves_weekly fs p.1 p.2 m r h)

/-- The report files of a run with one already-written report for the week
of Monday day 4. -/
def fs0 : ReportFiles := ⟨[(4, "kept")], ""⟩

/-- Witness for C2: the pre-existing report survives a concrete later run. -/
theorem permanent_reports_write_once_witness :
    ((run_reports fs0 [] (25 * 86400)).1).weekly.lookup 4 = some "kept" :=
  (permanent_reports_write_once fs0 [] (25 * 86400)).1 4 "kept" (by decide)

/-- C8: one run of the rollover check touches no weekly report other than
that of the single immediately preceding week, so a strictly earlier week
whose report is missing stays missing across any sequence of runs whose
previous-week anchors all lie after it. -/
theorem rollover_checks_only_previous_week (store : WeeklyStore) (cache : Cache)
    (today m : ℤ) :
    (m ≠ week_monday today - 7 →
        ((check_weekly_rollover store cache today).1).lookup m = store.lookup m) ∧
    (∀ runs : List (Cache × ℤ), store.lookup m = none →
        (∀ p ∈ runs, m < week_monday p.2 - 7) →
        ((runs.foldl (fun st p => (check_weekly_rollover st p.1 p.2).1) store)).lookup m
          = none) := by
  refine ⟨rollover_frame store cache today m, ?_⟩
  intro runs
  induction runs generalizing store with
  | nil => exact fun h _ => h
  | cons p rest ih =>
    intro h hlt
    apply ih
    · rw [rollover_frame store p.1 p.2 m (ne_of_lt (hlt p (List.mem_cons_self _ _)))]
      exact h
    · exact fun q hq => hlt q (List.mem_cons_of_mem _ hq)

/-- Witness for C8: the missing report of Monday day 4 is still missing
after a concrete run dated in a much later week. -/
theorem rollover_checks_only_previous_week_witness :
    ((([(([] : Cache), (25 : ℤ))]).foldl
        (fun st p => (check_weekly_rollover st p.1 p.2).1) ([] : WeeklyStore))).lookup 4
      = none :=
  (rollover_checks_only_previous_week [] [] 25 4).2 [([], 25)] rfl (by decide)

theorem perm_filter_of_congr {α : Type} (p q : α → Bool) (l : List α)
    (h : ∀ a ∈ l, p a = q a) : (l.filter p).Perm (l.filter q) := by
  rw [List.filter_congr h]

theorem filter_union_perm {α : Type} (p q : α → Bool) (l : List α)
    (h : ∀ a ∈ l, ¬(p a = true ∧ q a = true)) :
    (l.filter p ++ l.filter q).Perm (l.filter (fun a => p a || q a)) := by
  induction l with
  | nil => simp
  | cons x xs ih =>
    have hxs : ∀ a ∈ xs, ¬(p a = true ∧ q a = true) :=
      fun a ha => h a (List.mem_cons_of_mem _ ha)
    have hperm := ih hxs
    by_cases hp : p x = true
    · have hq : ¬(q x = true) := fun hq => h x (List.mem_cons_self _ _) ⟨hp, hq⟩
      simp only [List.filter_cons, hp, if_true, Bool.true_or, hq, if_false,
        List.cons_append, eq_self_iff_true, if_pos]
      exact hperm.cons x
    · by_cases hq : q x = true
      · have hpf : p x = false := Bool.eq_false_iff.mpr hp
        simp only [List.filter_cons, hpf, Bool.false_eq_true, if_false, hq, if_true,
          Bool.false_or, eq_self_iff_true, if_pos]
        exact List.perm_middle.trans (hperm.cons x)
      · have hpf : p x = false := Bool.eq_false_iff.mpr hp
        have hqf : q x = false := Bool.eq_false_iff.mpr hq
        simp only [List.filter_cons, hpf, hqf, Bool.false_eq_true, if_false,
          Bool.false_or]
        exact hperm

/-- C4: the records of a week are exactly the cached records whose local
date lies in the inclusive Mon-Sun range of the anchor (as a permutation of
the corresponding filter of the cache, and elementwise as a membership
characterisation), the result is sorted ascending by start instant, and the
concatenation over any number of consecutive non-overlapping weeks is a
permutation of the cache restricted to the covered date range. -/
theorem activities_for_week_spec (cache : Cache) (monday : ℤ) :
    (activities_for_week cache monday).Perm (cache.filter (inWeek monday)) ∧
    (∀ a, a ∈ activities_for_week cache monday ↔
        a ∈ cache ∧ monday ≤ localDate a.start_date_local ∧
          localDate a.start_date_local ≤ monday + 6) ∧
    List.Sorted (fun a b : Activity => a.start_date_local ≤ b.start_date_local)
      (activities_for_week cache monday) ∧
    (∀ n : ℕ, ((List.range n).flatMap
          (fun i => activities_for_week cache (monday + 7 * (i : ℤ)))).Perm
        (cache.filter (fun a => decide (monday ≤ localDate a.start_date_local ∧
            localDate a.start_date_local ≤ monday + 7 * (n : ℤ) - 1)))) := by
  have hperm : ∀ m : ℤ, (activities_for_week cache m).Perm (cache.filter (inWeek m)) :=
    fun m => List.mergeSort_perm (cache.filter (inWeek m)) startLe
  refine ⟨hperm monday, ?_, ?_, ?_⟩
  · intro a
    rw [(hperm monday).mem_iff, List.mem_filter]
    simp [inWeek]
  · have htrans : ∀ a b c : Activity, startLe a b = true → startLe b c = true →
        startLe a c = true := by
      intro a b c hab hbc
      simp only [startLe, decide_eq_true_eq] at hab hbc ⊢
      exact le_trans hab hbc
    have htotal : ∀ a b : Activity, (startLe a b || startLe b a) = true := by
      intro a b
      simp only [startLe, Bool.or_eq_true, decide_eq_true_eq]
      exact le_total _ _
    have hs := @List.sorted_mergeSort Activity startLe htrans htotal
      (cache.filter (inWeek monday))
    exact hs.imp (fun h => of_decide_eq_true h)
  · intro n
    induction n with
    | zero =>
      rw [List.range_zero, List.flatMap_nil]
      have h0 : ∀ a ∈ cache, ¬((fun a => decide (monday ≤ localDate a.start_date_local ∧
          localDate a.start_date_local ≤ monday + 7 * ((0 : ℕ) : ℤ) - 1)) a = true) := by
        intro a _
        simp only [decide_eq_true_eq]
        push_cast
        omega
      rw [List.filter_eq_nil_iff.mpr h0]
    | succ k ih =>
      rw [List.range_succ, List.flatMap_append, List.flatMap_cons, List.flatMap_nil,
        List.append_nil]
      refine (List.Perm.append ih (hperm (monday + 7 * (k : ℤ)))).trans ?_
      refine (filter_union_perm _ _ cache ?_).trans (perm_filter_of_congr _ _ cache ?_)
      · intro a _
        simp only [inWeek, decide_eq_true_eq]
        intro hcon
        omega
      · intro a _
        rw [Bool.eq_iff_iff]
        simp only [Bool.or_eq_true, inWeek, decide_eq_true_eq]
        push_cast
        omega

/-- Witness for C4 at a concrete cache and anchor: the week slice is sorted
ascending by start instant. -/
theorem activities_for_week_spec_witness :
    List.Sorted (fun a b : Activity => a.start_date_local ≤ b.start_date_local)
      (activities_for_week [actRun, actRide] 4) :=
  (activities_for_week_spec [actRun, actRide] 4).2.2.1

/-- An activity dated Monday day 4 (the first Monday of 1970). -/
def actMon : Activity := ⟨10, "Run", "Monday run", 4 * 86400, 5000, 1800, false, 0⟩

/-- An activity dated Tuesday day 5, one day after `actMon`. -/
def actTue : Activity := ⟨11, "Run", "Tuesday run", 5 * 86400, 5000, 1800, false, 0⟩

/-- C6 counterexample: with today = Monday day 4 (so the week anchored at
day 4 is the week containing now and only one day has elapsed), a cache
holding activities dated day 4 and day 5 - both inside the Mon-Sun range,
the second dated after today - gives a rest-day count of -1, strictly below
0, refuting the claimed lower bound. -/
theorem rest_days_negative_counterexample :
    weekday 4 = 0 ∧ (4 : ℤ) ≤ 4 ∧ (4 : ℤ) ≤ 4 + 6 ∧
    (∀ a ∈ [actMon, actTue], inWeek 4 a = true) ∧
    days_so_far 4 4 = 1 ∧ rest_days [actMon, actTue] 4 4 = -1 ∧
    ¬(0 ≤ rest_days [actMon, actTue] 4 4) := by
  decide

/-- C6 amended: the rest-day count equals days-considered minus the number
of distinct active dates, where days-considered is `min(today, anchor+6) -
anchor + 1` (the elapsed days for the week containing now, and 7 for fully
past weeks); the count never exceeds days-considered, and it is at least 0
provided every activity of the week is dated no later than
`min(today, anchor+6)` - without that proviso it can be negative, as a
future-dated activity in the current week shows. -/
theorem rest_days_spec (acts : List Activity) (monday now : ℤ)
    (hmn : monday ≤ now)
    (hdates : ∀ a ∈ acts, monday ≤ localDate a.start_date_local ∧
        localDate a.start_date_local ≤ min now (monday + 6)) :
    rest_days acts monday now = days_so_far monday now - (active_days acts).card ∧
    (now ≤ monday + 6 → days_so_far monday now = now - monday + 1) ∧
    (monday + 6 < now → days_so_far monday now = 7) ∧
    0 ≤ rest_days acts monday now ∧
    rest_days acts monday now ≤ days_so_far monday now := by
  have hsub : active_days acts ⊆ Finset.Icc monday (min now (monday + 6)) := by
    intro x hx
    simp only [active_days, List.mem_toFinset, List.mem_map] at hx
    obtain ⟨a, ha, rfl⟩ := hx
    exact Finset.mem_Icc.mpr (hdates a ha)
  have hcard := Finset.card_le_card hsub
  rw [Int.card_Icc] at hcard
  refine ⟨rfl, ?_, ?_, ?_, ?_⟩
  · intro h
    simp only [days_so_far]
    omega
  · intro h
    simp only [days_so_far]
    omega
  · simp only [rest_days, days_so_far]
    omega
  · simp only [rest_days, days_so_far]
    omega

/-- Witness for C6 (amended) at a concrete past-dated week slice. -/
theorem rest_days_spec_witness :
    0 ≤ rest_days [actMon] 4 4 ∧ rest_days [actMon] 4 4 ≤ days_so_far 4 4 :=
  ⟨(rest_days_spec [actMon] 4 4 (by decide) (by decide)).2.2.2.1,
   (rest_days_spec [actMon] 4 4 (by decide) (by decide)).2.2.2.2⟩

theorem ratFloor_eq_floor (q : ℚ) : ratFloor q = ⌊q⌋ := Rat.floor_def.symm

theorem pyRound_cases (q : ℚ) : pyRound q = ratFloor q ∨ pyRound q = ratFloor q + 1 := by
  simp only [pyRound]
  split_ifs <;> simp

/-- C9: for every moving time and strictly positive distance, the formatted
pace is `M:SS/mi` with a non-negative minutes component and a seconds
component in `0..59`: the carry at a rounded value of 60 keeps the seconds
strictly below 60. -/
theorem format_pace_seconds_component (m : ℕ) (d : ℚ) (hd : 0 < d) :
    ∃ M S : ℤ, 0 ≤ M ∧ 0 ≤ S ∧ S < 60 ∧
      format_pace m d = toString M ++ ":" ++ pad2Int S ++ "/mi" := by
  have hd0 : d ≠ 0 := ne_of_gt hd
  have hpnn : (0 : ℚ) ≤ (m : ℚ) / 60 / d :=
    div_nonneg (div_nonneg (Nat.cast_nonneg m) (by norm_num)) hd.le
  have htr : pyTrunc ((m : ℚ) / 60 / d) = ⌊(m : ℚ) / 60 / d⌋ := by
    rw [pyTrunc, if_pos hpnn, ratFloor_eq_floor]
  have hr0 : (0 : ℚ) ≤ ((m : ℚ) / 60 / d - (pyTrunc ((m : ℚ) / 60 / d) : ℚ)) * 60 := by
    rw [htr]
    have := Int.floor_le ((m : ℚ) / 60 / d)
    linarith
  have hrlt : ((m : ℚ) / 60 / d - (pyTrunc ((m : ℚ) / 60 / d) : ℚ)) * 60 < 60 := by
    rw [htr]
    have := Int.lt_floor_add_one ((m : ℚ) / 60 / d)
    linarith
  have hW0 : 0 ≤ pyTrunc ((m : ℚ) / 60 / d) := by
    rw [htr]
    exact Int.floor_nonneg.mpr hpnn
  have hF : 0 ≤ pyRound (((m : ℚ) / 60 / d - (pyTrunc ((m : ℚ) / 60 / d) : ℚ)) * 60) ∧
      pyRound (((m : ℚ) / 60 / d - (pyTrunc ((m : ℚ) / 60 / d) : ℚ)) * 60) ≤ 60 := by
    have hfl0 : 0 ≤ ⌊((m : ℚ) / 60 / d - (pyTrunc ((m : ℚ) / 60 / d) : ℚ)) * 60⌋ :=
      Int.floor_nonneg.mpr hr0
    have hfl59 : ⌊((m : ℚ) / 60 / d - (pyTrunc ((m : ℚ) / 60 / d) : ℚ)) * 60⌋ < 60 :=
      Int.floor_lt.mpr (by exact_mod_cast hrlt)
    rcases pyRound_cases (((m : ℚ) / 60 / d - (pyTrunc ((m : ℚ) / 60 / d) : ℚ)) * 60)
      with h | h <;> rw [h, ratFloor_eq_floor] <;> omega
  refine ⟨if pyRound (((m : ℚ) / 60 / d - (pyTrunc ((m : ℚ) / 60 / d) : ℚ)) * 60) = 60
      then pyTrunc ((m : ℚ) / 60 / d) + 1 else pyTrunc ((m : ℚ) / 60 / d),
    if pyRound (((m : ℚ) / 60 / d - (pyTrunc ((m : ℚ) / 60 / d) : ℚ)) * 60) = 60
      then 0 else pyRound (((m : ℚ) / 60 / d - (pyTrunc ((m : ℚ) / 60 / d) : ℚ)) * 60),
    ?_, ?_, ?_, ?_⟩
  · split_ifs <;> omega
  · split_ifs with h
    · omega
    · exact hF.1
  · split_ifs with h
    · omega
    · omega
  · simp only [format_pace, if_neg hd0]

/-- Witness for C9 at the concrete pace inputs of the worked example. -/
theorem format_pace_seconds_component_witness :
    (0 : ℚ) < 31 / 5 ∧ ∃ M S : ℤ, 0 ≤ M ∧ 0 ≤ S ∧ S < 60 ∧
      format_pace 3720 (31 / 5) = toString M ++ ":" ++ pad2Int S ++ "/mi" :=
  ⟨by norm_num, format_pace_seconds_component 3720 (31 / 5) (by norm_num)⟩

theorem format_pace_example : format_pace 3720 (31 / 5 : ℚ) = "10:00/mi" := by
  have hd0 : (31 / 5 : ℚ) ≠ 0 := by norm_num
  have hpace : ((3720 : ℕ) : ℚ) / 60 / (31 / 5 : ℚ) = 10 := by norm_num
  simp only [format_pace, if_neg hd0, hpace]
  have htr : pyTrunc (10 : ℚ) = 10 := by
    rw [pyTrunc, if_pos (by norm_num : (0 : ℚ) ≤ 10), ratFloor_eq_floor]
    simp
  rw [htr]
  have h0 : ((10 : ℚ) - ((10 : ℤ) : ℚ)) * 60 = 0 := by norm_num
  rw [h0]
  have hr : pyRound (0 : ℚ) = 0 := by
    simp only [pyRound, ratFloor_eq_floor, Int.floor_zero]
    norm_num
  rw [hr]
  decide

/-- C7: the aggregate run pace of a week is the em dash when the total run
distance is zero, and otherwise the total run moving time formatted against
the total run distance; on one 6.2-mile run (9977.908 meters) of 3720
seconds it is exactly "10:00/mi". -/
theorem aggregate_run_pace_spec :
    (∀ acts, run_miles acts = 0 → run_pace acts = "—") ∧
    (∀ acts, 0 < run_miles acts →
        run_pace acts = format_pace (run_time acts) (run_miles acts)) ∧
    run_pace [actRun] = "10:00/mi" := by
  refine ⟨?_, ?_, ?_⟩
  · intro acts h
    simp only [run_pace, h]
    norm_num
  · intro acts h
    simp only [run_pace]
    rw [if_pos h]
  · have hrun : is_run actRun = true := by decide
    have hruns : runsOf [actRun] = [actRun] := by
      simp [runsOf, List.filter_cons, hrun]
    have hmiles : run_miles [actRun] = 31 / 5 := by
      rw [run_miles, hruns]
      simp only [List.map_cons, List.map_nil, List.sum_cons, List.sum_nil, add_zero]
      norm_num [actRun, METERS_PER_MILE]
    have htime : run_time [actRun] = 3720 := by
      rw [run_time, hruns]
      simp [actRun]
    simp only [run_pace, hmiles, htime]
    rw [if_pos (by norm_num : (31 / 5 : ℚ) > 0)]
    exact format_pace_example

/-- Witness for C7: the zero-distance branch at the empty week. -/
theorem aggregate_run_pace_spec_witness : run_pace [] = "—" :=
  aggregate_run_pace_spec.1 [] rfl

/-- C10: when the previous week has a missing report, generation does not
skip an empty week: the report is written even if no cached activity falls
in the week, its totals block is computed over the empty activity list, its
activity table shows the placeholder row, and its lines agree with those of
an empty cache. -/
theorem empty_week_report_generated (store : WeeklyStore) (cache : Cache)
    (monday now : ℤ) (habs : store.lookup monday = none)
    (hempty : activities_for_week cache monday = []) :
    (generate_weekly_summary store cache monday now).lookup monday =
        some (weekly_report cache monday now) ∧
    noActivitiesRow ∈ weekly_report_lines cache monday now ∧
    build_week_totals [] monday now ∈ weekly_report_lines cache monday now ∧
    weekly_report_lines cache monday now = weekly_report_lines [] monday now := by
  have hnil : activities_for_week ([] : Cache) monday = [] := by
    simp [activities_for_week, List.mergeSort_nil]
  refine ⟨?_, ?_, ?_, ?_⟩
  · have hs : (store.lookup monday).isSome = false := by
      rw [habs]
      rfl
    simp only [generate_weekly_summary, hs, Bool.false_eq_true, if_false]
    exact lookup_cons_self _ _ _
  · simp [weekly_report_lines, hempty]
  · simp [weekly_report_lines, hempty]
  · simp [weekly_report_lines, hempty, hnil]

/-- Witness for C10: the empty cache and an absent report for the week of
Monday day 4. -/
theorem empty_week_report_generated_witness :
    (generate_weekly_summary [] [] 4 7).lookup 4 = some (weekly_report [] 4 7) ∧
    noActivitiesRow ∈ weekly_report_lines [] 4 7 :=
  ⟨(empty_week_report_generated [] [] 4 7 rfl
      (by simp [activities_for_week, List.mergeSort_nil])).1,
   (empty_week_report_generated [] [] 4 7 rfl
      (by simp [activities_for_week, List.mergeSort_nil])).2.1⟩
